import Mathlib

set_option maxRecDepth 8000

/-!
Verification of the click-engine repository: a shallow embedding of its
service layer (project generation, wallet, editor history, image CDN
wrapper) together with theorems settling the specification claims.

All definitions are translated directly from the TypeScript source:
  - src/unnamed/part_002 : ProjectsService.create and the generate-image
    edge function;
  - src/services/wallet.ts : WalletService;
  - src/services/editorHistory.ts : EditorHistoryService;
  - src/utils/imageOptimizer.ts : getOptimizedImageUrl / getOriginalImageUrl;
  - src/components/features/ImageEditor.tsx : calculateAspectRatio.
-/

/-! ## String helpers modelling the JavaScript string primitives -/

/-- Model of the JavaScript expression s.startsWith(p). -/
def strStartsWith (s p : String) : Bool :=
  p.toList.isPrefixOf s.toList

/-- Model of the JavaScript expression s.includes(p): some tail of s has p
as a prefix. -/
def strContains (s p : String) : Bool :=
  s.toList.tails.any fun t => p.toList.isPrefixOf t

/-- Model of JavaScript string truthiness for an optional string field:
undefined and the empty string are falsy. -/
def jsTruthy : Option String → Bool
  | none => false
  | some s => s ≠ ""

/-! ## ProjectsService.create (src/unnamed/part_002, lines 55-201)

The client routes a generation request either to the generate-image edge
function (Grok 2 and Nano Banana models) or to the Pollinations HTTP API.
External interactions are modelled by an environment record holding the
outcome of each external call; the function itself is pure.  -/

/-- Input of ProjectsService.create: the projectData argument. -/
structure CreateInput where
  model : String
  prompt : String
  author : String
  authorAvatar : String
  aspectRatio : Option String
  referenceImage : Option String
  referenceImageMimeType : Option String
  resolution : Option String

/-- Line 60: const aspectRatio = projectData.aspectRatio || "1:1". -/
def effectiveAspect (a : Option String) : String :=
  if jsTruthy a then a.getD "1:1" else "1:1"

/-- Lines 70-85: the aspect-ratio prefix prepended to the prompt sent to the
edge function. -/
def enhancedPrompt (hasRef : Bool) (aspect prompt : String) : String :=
  if hasRef then
    "maintain original " ++ aspect ++ " aspect ratio, " ++ prompt
  else if aspect = "16:9" then
    "wide 16:9 aspect ratio, landscape orientation, cinematic shot, " ++ prompt
  else if aspect = "4:3" then
    "4:3 aspect ratio, landscape orientation, " ++ prompt
  else if aspect = "1:1" then
    "square 1:1 aspect ratio, " ++ prompt
  else
    prompt

/-- Lines 66 and 86-93: apiModelId starts as the Grok default and is
overridden for Nano Banana models. -/
def apiModelId (model : String) : String :=
  if strContains model "Nano Banana" then
    if model = "Nano Banana Pro" then "gemini-3-pro-image-preview"
    else "gemini-2.5-flash-image"
  else "grok-2-image-1212"

/-- Lines 67 and 92: provider starts as xai and is overridden to google for
Nano Banana models. -/
def providerFor (model : String) : String :=
  if strContains model "Nano Banana" then "google" else "xai"

/-- Line 62: the condition selecting the edge-function path. -/
def isEdgeModel (model : String) : Bool :=
  model = "Grok 2" || strContains model "Nano Banana"

/-- Lines 144-154: Pollinations request dimensions from the aspect ratio. -/
def pollDims (aspect : String) : Nat × Nat :=
  if aspect = "16:9" then (1280, 720)
  else if aspect = "4:3" then (1024, 768)
  else (1024, 1024)

/-- Body of the supabase.functions.invoke call, lines 95-105. -/
structure EdgeBody where
  prompt : String
  model : String
  provider : String
  referenceImage : Option String
  referenceImageMimeType : Option String
  aspectRatio : String
  resolution : Option String

/-- The single outgoing generation request of ProjectsService.create. -/
inductive GenRequest where
  | edge (body : EdgeBody)
  | poll (prompt : String) (width : Nat) (height : Nat)

/-- True when the request goes to the generate-image edge function. -/
def GenRequest.isEdge : GenRequest → Bool
  | .edge _ => true
  | .poll _ _ _ => false

/-- Provider field of an edge request. -/
def GenRequest.reqProvider : GenRequest → Option String
  | .edge b => some b.provider
  | .poll _ _ _ => none

/-- API model id field of an edge request. -/
def GenRequest.reqApiModel : GenRequest → Option String
  | .edge b => some b.model
  | .poll _ _ _ => none

/-- Prompt actually sent out (edge: the enhanced prompt; Pollinations: the
raw prompt placed in the URL). -/
def GenRequest.sentPrompt : GenRequest → String
  | .edge b => b.prompt
  | .poll p _ _ => p

/-- Width and height of a Pollinations request. -/
def GenRequest.pollSize : GenRequest → Option (Nat × Nat)
  | .edge _ => none
  | .poll _ w h => some (w, h)

/-- Lines 60-105 and 142-156: which external request ProjectsService.create
issues for a given input. -/
def routedRequest (input : CreateInput) : GenRequest :=
  let aspect := effectiveAspect input.aspectRatio
  if isEdgeModel input.model then
    .edge { prompt := enhancedPrompt (jsTruthy input.referenceImage) aspect input.prompt
            model := apiModelId input.model
            provider := providerFor input.model
            referenceImage := input.referenceImage
            referenceImageMimeType := input.referenceImageMimeType
            aspectRatio := aspect
            resolution := input.resolution }
  else
    .poll input.prompt (pollDims aspect).1 (pollDims aspect).2

/-- JSON body returned by the generate-image edge function: either an error
message or an image URL plus the remaining credit balance. -/
structure EdgeData where
  imageUrl : String
  credits : Option Int
  error : Option String

/-- Outcomes of the external calls made during ProjectsService.create: the
edge-function response, the public URL of the Pollinations upload, and the
row produced by the projects insert. -/
structure CreateEnv where
  edgeData : EdgeData
  pollPublicUrl : String
  insertId : String
  insertCreatedAt : Nat

/-- The Project interface returned by ProjectsService.create (dates are
modelled as numeric timestamps). -/
structure Project where
  id : String
  imageUrl : String
  prompt : String
  author : String
  authorAvatar : String
  model : String
  date : Nat
  credits : Option Int

/-- Lines 116-120 and 133: the error text patterns mapped to a safety
violation. -/
def safetyText (e : String) : Bool :=
  strContains e "safety" || strContains e "blocked" || strContains e "SAFETY"

/-- Lines 121 and 134: the message of the safety error thrown client-side. -/
def safetyMsg : String := "SAFETY_VIOLATION: Content blocked by safety filters."

/-- Rows inserted into the projects table, lines 175-184. -/
structure ProjectsInsertRow where
  prompt : String
  image_url : String
  model : String
  author_name : String

namespace ProjectsService

/-- Model of ProjectsService.create, lines 55-201: route the request, map an
edge-function error (safety errors are rewritten), and build the returned
Project. Infrastructure failures (storage, database) propagate opaque
exceptions in the source and are outside this model, so the environment
carries the successful outcome of each call. -/
def create (input : CreateInput) (env : CreateEnv) : Except String Project :=
  match routedRequest input with
  | .edge _ =>
    match env.edgeData.error with
    | some e => .error (if safetyText e then safetyMsg else e)
    | none =>
      .ok { id := env.insertId
            imageUrl := env.edgeData.imageUrl
            prompt := input.prompt
            author := input.author
            authorAvatar := input.authorAvatar
            model := input.model
            date := env.insertCreatedAt
            credits := env.edgeData.credits }
  | .poll _ _ _ =>
    .ok { id := env.insertId
          imageUrl := env.pollPublicUrl
          prompt := input.prompt
          author := input.author
          authorAvatar := input.authorAvatar
          model := input.model
          date := env.insertCreatedAt
          credits := none }

/-- The row ProjectsService.create inserts into the projects table,
lines 175-184: the original prompt, the produced image URL, the model and
the author name. -/
def createInsertRow (input : CreateInput) (env : CreateEnv) : ProjectsInsertRow :=
  { prompt := input.prompt
    image_url :=
      match routedRequest input with
      | .edge _ => env.edgeData.imageUrl
      | .poll _ _ _ => env.pollPublicUrl
    model := input.model
    author_name := input.author }

end ProjectsService

/-- Edge function, lines 344-352: the safety check on the Google response,
mapping a prompt-feedback block reason or a SAFETY finish reason to an
error message. -/
def googleSafetyError (blockReason : Option String) (finishReason : Option String) :
    Option String :=
  match blockReason with
  | some r =>
    some ("SAFETY_VIOLATION: Content blocked by safety filters (" ++ r ++ ")")
  | none =>
    if finishReason = some "SAFETY" then
      some "SAFETY_VIOLATION: Content blocked by safety filters."
    else none

/-! ## Editor aspect-ratio heuristic
(src/components/features/ImageEditor.tsx, lines 96-119) -/

/-- The candidate labels of calculateAspectRatio in object-literal order,
lines 100-106. -/
def aspectRatios : List (String × ℚ) :=
  [("16:9", 16 / 9), ("4:3", 4 / 3), ("1:1", 1), ("3:4", 3 / 4), ("9:16", 9 / 16)]

/-- Line 111: diff < minDiff, where none plays the initial Infinity. -/
def better (d : ℚ) : Option ℚ → Bool
  | none => true
  | some m => decide (d < m)

/-- Lines 107-115: the loop keeping the label whose ratio is strictly closer
to the image ratio than the best seen so far. -/
def chooseClosest (x : ℚ) : List (String × ℚ) → String × Option ℚ → String × Option ℚ
  | [], acc => acc
  | p :: rest, acc =>
    if better |x - p.2| acc.2 then chooseClosest x rest (p.1, some |x - p.2|)
    else chooseClosest x rest acc

/-- Lines 96-119: closest standard label for an image of width w and
height h. -/
def calculateAspectRatio (w h : ℚ) : String :=
  (chooseClosest (w / h) aspectRatios ("1:1", none)).1

/-! ## EditorHistoryService (src/services/editorHistory.ts) -/

/-- Row of the editor_sessions table. -/
structure SessionRow where
  id : String
  user_id : String
  original_url : String
  created_at : Nat
deriving DecidableEq

/-- Row of the editor_versions table. -/
structure VersionRow where
  id : String
  session_id : String
  url : String
  prompt : String
  model : String
  created_at : Nat
deriving DecidableEq

/-- The EditorVersion interface. -/
structure EditorVersion where
  id : String
  url : String
  prompt : String
  model : String
  timestamp : Nat
deriving DecidableEq

/-- The EditorSession interface. -/
structure EditorSession where
  id : String
  originalUrl : String
  versions : List EditorVersion
  timestamp : Nat
  userId : String
deriving DecidableEq

/-- Order produced by the sessions query: created_at descending, line 34. -/
def sessionDesc (a b : SessionRow) : Bool := b.created_at ≤ a.created_at

/-- Order produced by the versions query: created_at ascending, line 45. -/
def versionAsc (a b : VersionRow) : Bool := a.created_at ≤ b.created_at

/-- Lines 53-59: a version row mapped to the EditorVersion interface. -/
def toEditorVersion (v : VersionRow) : EditorVersion :=
  { id := v.id, url := v.url, prompt := v.prompt, model := v.model
    timestamp := v.created_at }

/-- Functional association list update, modelling Map.set. -/
def mapSet {α : Type} : List (String × α) → String → α → List (String × α)
  | [], k, a => [(k, a)]
  | (q, b) :: rest, k, a =>
    if q = k then (k, a) :: rest else (q, b) :: mapSet rest k a

/-- Functional association list lookup, modelling Map.get. -/
def mapGet {α : Type} (m : List (String × α)) (k : String) : Option α :=
  (m.find? fun kv => kv.1 = k).map fun kv => kv.2

/-- Lines 50-61: group the fetched version rows by session id, pushing each
version at the end of the list of its session, in encounter order. -/
def buildVersionsMap (vs : List VersionRow) : List (String × List EditorVersion) :=
  vs.foldl
    (fun m v =>
      mapSet m v.session_id ((mapGet m v.session_id).getD [] ++ [toEditorVersion v]))
    []

namespace EditorHistoryService

/-- Model of EditorHistoryService.getSessions, lines 21-80: fetch the
current user sessions newest first, fetch their versions oldest first,
group the versions per session, and drop the sessions without versions.
The current user comes from local storage and may be absent. -/
def getSessions (currentUser : Option String) (sessionsTable : List SessionRow)
    (versionsTable : List VersionRow) : List EditorSession :=
  match currentUser with
  | none => []
  | some uid =>
    let sessionsData :=
      (sessionsTable.filter fun s => s.user_id = uid).mergeSort sessionDesc
    let sessionIds := sessionsData.map fun s => s.id
    let versionsData :=
      (versionsTable.filter fun v => sessionIds.contains v.session_id).mergeSort
        versionAsc
    let versionsMap := buildVersionsMap versionsData
    let allSessions := sessionsData.map fun s =>
      { id := s.id
        originalUrl := s.original_url
        versions := (mapGet versionsMap s.id).getD []
        timestamp := s.created_at
        userId := s.user_id : EditorSession }
    allSessions.filter fun s => s.versions.length > 0

end EditorHistoryService

/-! ## WalletService (src/services/wallet.ts) -/

namespace WalletService

/-- Model of WalletService.getBalance, lines 15-28: the select outcome is
none on error, some none when the row carries no balance. Both failure
shapes, and a zero balance, produce 0. -/
def getBalance (res : Option (Option Int)) : Int :=
  match res with
  | none => 0
  | some b =>
    match b with
    | none => 0
    | some v => if v = 0 then 0 else v

end WalletService

/-- One modelUsage entry of the UsageStats interface. -/
structure ModelUsage where
  name : String
  used : Nat
  color : String
deriving DecidableEq

/-- The UsageStats interface. -/
structure UsageStats where
  modelUsage : List ModelUsage
  dailyActivity : List Nat
deriving DecidableEq

/-- Results of the three queries issued by getUsageStats; created_at values
are modelled as day numbers. -/
structure StatsData where
  nanoBananaCount : Option Nat
  nanoBananaProCount : Option Nat
  recentProjects : Option (List Nat)

/-- Lines 73-78: the trailing window of 7 day numbers ending today. -/
def last7Days (today : Nat) : List Nat :=
  (List.range 7).map fun i => today - (6 - i)

namespace WalletService

/-- Model of WalletService.getUsageStats, lines 53-102: on any backend
failure (res = none, the catch branch) the neutral defaults are returned;
otherwise the two model counters and the per-day counts of the last 7 days
are assembled. -/
def getUsageStats (today : Nat) (res : Option StatsData) : UsageStats :=
  match res with
  | none => { modelUsage := [], dailyActivity := [0, 0, 0, 0, 0, 0, 0] }
  | some dta =>
    { modelUsage :=
        [ { name := "Nano Banana Pro", used := dta.nanoBananaProCount.getD 0
            color := "bg-brand" },
          { name := "Nano Banana", used := dta.nanoBananaCount.getD 0
            color := "bg-yellow-500" } ]
      dailyActivity :=
        (last7Days today).map fun d =>
          ((dta.recentProjects.getD []).filter fun c => c = d).length }

end WalletService

/-! ## Database-effect footprint of every client-side operation

Each service function is summarised by the list of Supabase effects it can
issue, read off the source. The frame claim about the team wallet is stated
over these footprints. -/

/-- One Supabase interaction. -/
inductive DbEffect where
  | selectRows (table : String)
  | insertRow (table : String)
  | updateRow (table : String)
  | deleteRow (table : String)
  | rpcCall (fn : String)
  | storageUpload (bucket : String)
  | invokeEdge (fn : String)
  | subscribe (channel : String)
  | httpFetch (host : String)
deriving DecidableEq

/-- An effect that can change the team_wallet state: a direct write to the
table or the credit-deduction RPC. -/
def writesTeamWallet : DbEffect → Bool
  | .insertRow t => t = "team_wallet"
  | .updateRow t => t = "team_wallet"
  | .deleteRow t => t = "team_wallet"
  | .rpcCall f => f = "deduct_team_credits"
  | _ => false

/-- ProjectsService.getAll, part_002 lines 15-53. -/
def projectsGetAllEffects : List DbEffect :=
  [.selectRows "projects", .selectRows "users"]

/-- ProjectsService.create, part_002 lines 55-201: the edge path invokes
the function then inserts; the Pollinations path fetches, uploads and
inserts. -/
def projectsCreateEffects (model : String) : List DbEffect :=
  if isEdgeModel model then
    [.invokeEdge "generate-image", .insertRow "projects"]
  else
    [.httpFetch "image.pollinations.ai", .storageUpload "generated-images",
     .insertRow "projects"]

/-- ProjectsService.subscribeToProjects, part_002 lines 203-244. -/
def projectsSubscribeEffects : List DbEffect :=
  [.subscribe "public:projects", .selectRows "users"]

/-- WalletService.getBalance, wallet.ts lines 15-28. -/
def walletGetBalanceEffects : List DbEffect :=
  [.selectRows "team_wallet"]

/-- WalletService.subscribeToBalance, wallet.ts lines 30-51. -/
def walletSubscribeEffects : List DbEffect :=
  [.subscribe "public:team_wallet"]

/-- WalletService.getUsageStats, wallet.ts lines 53-102. -/
def walletGetUsageStatsEffects : List DbEffect :=
  [.selectRows "projects", .selectRows "projects", .selectRows "projects"]

/-- EditorHistoryService.getSessions, editorHistory.ts lines 21-80. -/
def editorGetSessionsEffects : List DbEffect :=
  [.selectRows "editor_sessions", .selectRows "editor_versions"]

/-- EditorHistoryService.createSession, editorHistory.ts lines 83-126: a
data URL is uploaded to storage first. -/
def editorCreateSessionEffects (originalUrl : String) : List DbEffect :=
  if strStartsWith originalUrl "data:image" then
    [.storageUpload "generated-images", .insertRow "editor_sessions"]
  else
    [.insertRow "editor_sessions"]

/-- EditorHistoryService.addVersion, editorHistory.ts lines 129-155. -/
def editorAddVersionEffects : List DbEffect :=
  [.insertRow "editor_versions"]

/-- EditorHistoryService.deleteSession, editorHistory.ts lines 158-171. -/
def editorDeleteSessionEffects : List DbEffect :=
  [.deleteRow "editor_sessions"]

/-- DesignersService.getAll, designers.ts lines 12-32. -/
def designersGetAllEffects : List DbEffect :=
  [.selectRows "users"]

/-- AuthService.login (src/vite.config.ts). -/
def authLoginEffects : List DbEffect :=
  [.selectRows "users", .updateRow "users"]

/-- AuthService.updateStatus (src/vite.config.ts). -/
def authUpdateStatusEffects : List DbEffect :=
  [.updateRow "users"]

/-- AuthService.updateProfile (src/vite.config.ts). -/
def authUpdateProfileEffects : List DbEffect :=
  [.storageUpload "avatars", .updateRow "users"]

/-- AuthService.logout (src/vite.config.ts). -/
def authLogoutEffects : List DbEffect :=
  [.updateRow "users"]

/-- uploadImage and uploadBase64Image (src/unnamed/part_004). -/
def uploadImageEffects (bucket : String) : List DbEffect :=
  [.storageUpload bucket]

/-- Every client-side operation footprint, parametrised over the inputs the
branches depend on. -/
def clientEffects (model originalUrl bucket : String) : List DbEffect :=
  projectsGetAllEffects ++ projectsCreateEffects model ++
  projectsSubscribeEffects ++ walletGetBalanceEffects ++
  walletSubscribeEffects ++ walletGetUsageStatsEffects ++
  editorGetSessionsEffects ++ editorCreateSessionEffects originalUrl ++
  editorAddVersionEffects ++ editorDeleteSessionEffects ++
  designersGetAllEffects ++ authLoginEffects ++ authUpdateStatusEffects ++
  authUpdateProfileEffects ++ authLogoutEffects ++ uploadImageEffects bucket

/-- Edge function, google branch (part_002 lines 277-404): call the Google
API, upload the image, deduct one credit. -/
def edgeGoogleEffects : List DbEffect :=
  [.httpFetch "generativelanguage.googleapis.com",
   .storageUpload "generated-images", .rpcCall "deduct_team_credits"]

/-- Edge function, xai branch (part_002 lines 406-455): call the xAI API,
upload the image, deduct one credit. -/
def edgeXaiEffects : List DbEffect :=
  [.httpFetch "api.x.ai", .storageUpload "generated-images",
   .rpcCall "deduct_team_credits"]

/-! ## imageOptimizer (src/utils/imageOptimizer.ts)

getOptimizedImageUrl builds a wsrv.nl proxy URL holding the original URL in
its url query parameter; getOriginalImageUrl parses it back. The URL query
machinery of the platform (URLSearchParams append/toString/get over the
form-urlencoded codec, UTF-8 based) is modelled below at the character
level. -/

/-- Characters the form-urlencoded serialiser leaves intact: ASCII
alphanumeric and * - . _ . -/
def isUnreservedChar (c : Char) : Bool :=
  c.isAlphanum || c = '*' || c = '-' || c = '.' || c = '_'

/-- Uppercase hexadecimal digit of a value below 16. -/
def hexDigitChar (n : Nat) : Char :=
  if n < 10 then Char.ofNat (48 + n) else Char.ofNat (55 + n)

/-- Value of a hexadecimal digit character. -/
def hexVal (c : Char) : Option Nat :=
  if 48 ≤ c.toNat ∧ c.toNat ≤ 57 then some (c.toNat - 48)
  else if 65 ≤ c.toNat ∧ c.toNat ≤ 70 then some (c.toNat - 55)
  else if 97 ≤ c.toNat ∧ c.toNat ≤ 102 then some (c.toNat - 87)
  else none

/-- UTF-8 byte sequence of a character. -/
def utf8Bytes (c : Char) : List Nat :=
  let n := c.toNat
  if n < 128 then [n]
  else if n < 2048 then [192 + n / 64, 128 + n % 64]
  else if n < 65536 then [224 + n / 4096, 128 + n / 64 % 64, 128 + n % 64]
  else [240 + n / 262144, 128 + n / 4096 % 64, 128 + n / 64 % 64, 128 + n % 64]

/-- Percent-escape of one byte. -/
def encodeByte (b : Nat) : List Char :=
  ['%', hexDigitChar (b / 16), hexDigitChar (b % 16)]

/-- Form-urlencoding of one character: unreserved characters stand as
themselves, the space becomes a plus, everything else is the percent-escape
of its UTF-8 bytes. -/
def encodeChar (c : Char) : List Char :=
  if isUnreservedChar c then [c]
  else if c = ' ' then ['+']
  else ((utf8Bytes c).map encodeByte).flatten

/-- Form-urlencoding of a string (URLSearchParams.toString on one value). -/
def encodeComponent (s : String) : String :=
  String.mk (s.toList.flatMap encodeChar)

/-- First decoding pass: the encoded text back to a byte sequence. A plus
is a space, a percent-escape is its byte, anything else contributes its own
UTF-8 bytes. -/
def decodeBytesAux : List Char → List Nat
  | [] => []
  | c :: h1 :: h2 :: rest =>
    if c = '+' then 32 :: decodeBytesAux (h1 :: h2 :: rest)
    else if c = '%' then
      match hexVal h1, hexVal h2 with
      | some a, some b => (16 * a + b) :: decodeBytesAux rest
      | _, _ => utf8Bytes c ++ decodeBytesAux (h1 :: h2 :: rest)
    else utf8Bytes c ++ decodeBytesAux (h1 :: h2 :: rest)
  | c :: rest =>
    if c = '+' then 32 :: decodeBytesAux rest
    else utf8Bytes c ++ decodeBytesAux rest

/-- Number of continuation bytes announced by a UTF-8 lead byte. -/
def utf8Len (b0 : Nat) : Nat :=
  if b0 < 128 then 0 else if b0 < 224 then 1 else if b0 < 240 then 2 else 3

/-- Code point reassembled from a lead byte and the following bytes;
missing continuation bytes are read as zero, a case never arising from
encoded input. -/
def utf8Val (b0 : Nat) (rest : List Nat) : Char :=
  if b0 < 128 then Char.ofNat b0
  else if b0 < 224 then Char.ofNat ((b0 - 192) * 64 + (rest.headD 0 - 128))
  else if b0 < 240 then
    Char.ofNat ((b0 - 224) * 4096 + (rest.headD 0 - 128) * 64 +
      ((rest.drop 1).headD 0 - 128))
  else
    Char.ofNat ((b0 - 240) * 262144 + (rest.headD 0 - 128) * 4096 +
      ((rest.drop 1).headD 0 - 128) * 64 + ((rest.drop 2).headD 0 - 128))

/-- Second decoding pass: UTF-8 bytes back to characters. -/
def utf8Decode : List Nat → List Char
  | [] => []
  | b0 :: rest => utf8Val b0 rest :: utf8Decode (rest.drop (utf8Len b0))
termination_by l => l.length
decreasing_by
  simp only [List.length_cons, List.length_drop]
  omega

/-- Form-urldecoding of a string (URLSearchParams.get on one value). -/
def decodeComponent (s : String) : String :=
  String.mk (utf8Decode (decodeBytesAux s.toList))

/-- URLSearchParams.toString: the pairs joined by ampersands, each rendered
as encoded key, equals sign, encoded value. -/
def paramsToString : List (String × String) → String
  | [] => ""
  | [kv] => encodeComponent kv.1 ++ "=" ++ encodeComponent kv.2
  | kv :: rest =>
    encodeComponent kv.1 ++ "=" ++ encodeComponent kv.2 ++ "&" ++
      paramsToString rest

/-- Model of getOptimizedImageUrl, imageOptimizer.ts lines 12-49: empty and
data:/blob: URLs pass through; otherwise a wsrv.nl URL is built from the
appended parameters url, w (when a nonzero width is supplied), q, output,
af, il. -/
def getOptimizedImageUrl (url : String) (width : Option Nat) (quality : Nat)
    (format : String) : String :=
  if url = "" then ""
  else if strStartsWith url "data:" || strStartsWith url "blob:" then url
  else
    "https://wsrv.nl/" ++ "?" ++ paramsToString
      ([("url", url)] ++
        (match width with
         | some wv => if wv = 0 then [] else [("w", toString wv)]
         | none => []) ++
        [("q", toString quality), ("output", format), ("af", ""), ("il", "")])

/-- Query part of a URL: everything after the first question mark. -/
def afterQuestionMark : List Char → Option (List Char)
  | [] => none
  | c :: rest => if c = '?' then some rest else afterQuestionMark rest

/-- Split a query on ampersands. -/
def splitOnAmp : List Char → List (List Char)
  | [] => [[]]
  | c :: rest =>
    if c = '&' then [] :: splitOnAmp rest
    else
      match splitOnAmp rest with
      | [] => [[c]]
      | g :: gs => (c :: g) :: gs

/-- Split one pair at the first equals sign. -/
def splitKV : List Char → List Char × List Char
  | [] => ([], [])
  | c :: rest =>
    if c = '=' then ([], rest)
    else (c :: (splitKV rest).1, (splitKV rest).2)

/-- URL.searchParams.get: the decoded value of the first pair whose decoded
key matches. -/
def getQueryParam (url key : String) : Option String :=
  (afterQuestionMark url.toList).bind fun q =>
    ((splitOnAmp q).find? fun pr =>
        decodeComponent (String.mk (splitKV pr).1) = key).map
      fun pr => decodeComponent (String.mk (splitKV pr).2)

/-- Model of getOriginalImageUrl, imageOptimizer.ts lines 54-69: on a URL
mentioning wsrv.nl, return the url query parameter when it is nonempty. -/
def getOriginalImageUrl (url : String) : String :=
  if url = "" then ""
  else if strContains url "wsrv.nl" then
    match getQueryParam url "url" with
    | some v => if v = "" then url else v
    | none => url
  else url

/-! ## Theorems -/

theorem strContains_of_isPrefix {s p q : String} (hq : q.toList <+: p.toList)
    (h : strStartsWith s p = true) : strContains s q = true := by
  unfold strStartsWith at h
  unfold strContains
  rw [ List.isPrefixOf_iff_prefix] at h
  rw [List.any_eq_true]
  refine ⟨s.toList, ?_, ?_⟩
  · exact (List.mem_tails _ _).2 (List.suffix_refl _)
  · rw [ List.isPrefixOf_iff_prefix]
    exact hq.trans h

theorem isEdge_routedRequest (input : CreateInput) :
    (routedRequest input).isEdge = isEdgeModel input.model := by
  unfold routedRequest
  split <;> simp_all [GenRequest.isEdge]

theorem reqProvider_routedRequest (input : CreateInput) :
    (routedRequest input).reqProvider =
      if isEdgeModel input.model then some (providerFor input.model) else none := by
  unfold routedRequest
  split <;> simp_all [GenRequest.reqProvider]

theorem reqApiModel_routedRequest (input : CreateInput) :
    (routedRequest input).reqApiModel =
      if isEdgeModel input.model then some (apiModelId input.model) else none := by
  unfold routedRequest
  split <;> simp_all [GenRequest.reqApiModel]

theorem pollSize_routedRequest (input : CreateInput) :
    (routedRequest input).pollSize =
      if isEdgeModel input.model then none
      else some (pollDims (effectiveAspect input.aspectRatio)) := by
  unfold routedRequest
  split <;> simp_all [GenRequest.pollSize]

theorem sentPrompt_routedRequest (input : CreateInput) :
    (routedRequest input).sentPrompt =
      if isEdgeModel input.model then
        enhancedPrompt (jsTruthy input.referenceImage)
          (effectiveAspect input.aspectRatio) input.prompt
      else input.prompt := by
  unfold routedRequest
  split <;> simp_all [GenRequest.sentPrompt]

/-- C1: ProjectsService.create delegates generation to the edge function
exactly for Grok 2 and Nano Banana models, with provider google and model
gemini-3-pro-image-preview for exactly "Nano Banana Pro", google and
gemini-2.5-flash-image for any other Nano Banana model, xai and
grok-2-image-1212 for Grok 2; every other model goes to Pollinations. -/
theorem create_routing (input : CreateInput) :
    ((routedRequest input).isEdge = true ↔
      (input.model = "Grok 2" ∨ strContains input.model "Nano Banana" = true))
    ∧ (input.model = "Nano Banana Pro" →
        (routedRequest input).reqProvider = some "google" ∧
        (routedRequest input).reqApiModel = some "gemini-3-pro-image-preview")
    ∧ (strContains input.model "Nano Banana" = true → input.model ≠ "Nano Banana Pro" →
        (routedRequest input).reqProvider = some "google" ∧
        (routedRequest input).reqApiModel = some "gemini-2.5-flash-image")
    ∧ (input.model = "Grok 2" →
        (routedRequest input).reqProvider = some "xai" ∧
        (routedRequest input).reqApiModel = some "grok-2-image-1212")
    ∧ (¬ (input.model = "Grok 2" ∨ strContains input.model "Nano Banana" = true) →
        (routedRequest input).pollSize =
          some (pollDims (effectiveAspect input.aspectRatio))) := by
  refine ⟨?_, ?_, ?_, ?_, ?_⟩
  · rw [isEdge_routedRequest]
    simp [isEdgeModel]
  · intro hpro
    rw [reqProvider_routedRequest, reqApiModel_routedRequest, hpro]
    constructor <;> decide
  · intro hc hne
    have hedge : isEdgeModel input.model = true := by
      simp [isEdgeModel, hc]
    rw [reqProvider_routedRequest, reqApiModel_routedRequest, hedge]
    constructor
    · simp [providerFor, hc]
    · simp [apiModelId, hc, hne]
  · intro hgrok
    rw [reqProvider_routedRequest, reqApiModel_routedRequest, hgrok]
    constructor <;> decide
  · intro hcon
    push_neg at hcon
    have hedge : isEdgeModel input.model = false := by
      simp [isEdgeModel, hcon.1, hcon.2]
    rw [pollSize_routedRequest, hedge]
    simp

theorem strStartsWith_append (a b : String) : strStartsWith (a ++ b) a = true := by
  unfold strStartsWith
  rw [ List.isPrefixOf_iff_prefix]
  have : (a ++ b).toList = a.toList ++ b.toList := by
    simp [String.toList]
  rw [this]
  exact List.prefix_append _ _

theorem exists_edge_of_isEdge (r : GenRequest) (h : r.isEdge = true) :
    ∃ b, r = GenRequest.edge b := by
  cases r with
  | edge b => exact ⟨b, rfl⟩
  | poll p w hgt => simp [GenRequest.isEdge] at h

theorem safetyText_of_startsWith_safety {m : String}
    (h : strStartsWith m "SAFETY_VIOLATION" = true) : safetyText m = true := by
  unfold safetyText
  have : strContains m "SAFETY" = true := by
    refine strContains_of_isPrefix ?_ h
    rw [← List.isPrefixOf_iff_prefix]
    decide
  simp [this]

/-- C2: for an edge-routed generation, create throws an error starting with
SAFETY_VIOLATION exactly when the edge-function response carries an error
text containing "safety", "blocked" or "SAFETY"; and every error the edge
function produces from a provider block reason matches that pattern. -/
theorem create_safety_violation (input : CreateInput) (env : CreateEnv)
    (hedge : (routedRequest input).isEdge = true) :
    ((∃ msg, ProjectsService.create input env = .error msg ∧
        strStartsWith msg "SAFETY_VIOLATION" = true) ↔
      (∃ e, env.edgeData.error = some e ∧ safetyText e = true))
    ∧ (∀ br fr m, googleSafetyError br fr = some m → safetyText m = true) := by
  obtain ⟨b, hb⟩ := exists_edge_of_isEdge _ hedge
  constructor
  · constructor
    · rintro ⟨msg, hmsg, hstart⟩
      unfold ProjectsService.create at hmsg
      rw [hb] at hmsg
      cases herr : env.edgeData.error with
      | none => rw [herr] at hmsg; exact absurd hmsg (by simp)
      | some e =>
        rw [herr] at hmsg
        refine ⟨e, rfl, ?_⟩
        by_cases hs : safetyText e = true
        · exact hs
        · simp only [Except.error.injEq] at hmsg
          rw [if_neg hs] at hmsg
          cases hmsg
          exact absurd (safetyText_of_startsWith_safety hstart) hs
    · rintro ⟨e, he, hse⟩
      refine ⟨safetyMsg, ?_, by decide⟩
      unfold ProjectsService.create
      rw [hb, he]
      simp [hse]
  · intro br fr m hm
    unfold googleSafetyError at hm
    cases br with
    | some r =>
      simp only [Option.some.injEq] at hm
      apply safetyText_of_startsWith_safety
      rw [← hm]
      have : "SAFETY_VIOLATION: Content blocked by safety filters (" ++ r ++ ")" =
          "SAFETY_VIOLATION: Content blocked by safety filters (" ++ (r ++ ")") := by
        rw [String.append_assoc]
      rw [this]
      exact strStartsWith_append _ _
    | none =>
      by_cases hf : fr = some "SAFETY"
      · rw [if_pos hf] at hm
        simp only [Option.some.injEq] at hm
        rw [← hm]
        decide
      · rw [if_neg hf] at hm
        exact absurd hm (by simp)

/-- Witness for C2: a Grok 2 request whose edge response reports a blocked
prompt yields a SAFETY_VIOLATION error. -/
theorem create_safety_violation_witness :
    ∃ msg,
      ProjectsService.create ⟨"Grok 2", "p", "u", "", none, none, none, none⟩
        ⟨⟨"", none, some "content blocked by filters"⟩, "", "id1", 5⟩ = .error msg ∧
      strStartsWith msg "SAFETY_VIOLATION" = true :=
  (create_safety_violation ⟨"Grok 2", "p", "u", "", none, none, none, none⟩
    ⟨⟨"", none, some "content blocked by filters"⟩, "", "id1", 5⟩ (by decide)).1.mpr
    ⟨"content blocked by filters", rfl, by decide⟩

/-- C5: for a Pollinations-routed generation the requested dimensions are
1280x720 for aspect 16:9, 1024x768 for 4:3, and 1024x1024 for every other
aspect ratio, including the 1:1 default taken when none is supplied. -/
theorem create_poll_dims (input : CreateInput)
    (h : isEdgeModel input.model = false) :
    (input.aspectRatio = some "16:9" →
      (routedRequest input).pollSize = some (1280, 720))
    ∧ (input.aspectRatio = some "4:3" →
      (routedRequest input).pollSize = some (1024, 768))
    ∧ (∀ a, input.aspectRatio = some a → a ≠ "16:9" → a ≠ "4:3" →
      (routedRequest input).pollSize = some (1024, 1024))
    ∧ (input.aspectRatio = none →
      (routedRequest input).pollSize = some (1024, 1024)) := by
  rw [pollSize_routedRequest, h]
  refine ⟨?_, ?_, ?_, ?_⟩
  · intro ha
    rw [ha]
    decide
  · intro ha
    rw [ha]
    decide
  · intro a ha h169 h43
    rw [ha]
    simp only [Bool.false_eq_true, if_false]
    by_cases hempty : a = ""
    · rw [hempty]
      decide
    · have heff : effectiveAspect (some a) = a := by
        simp [effectiveAspect, jsTruthy, hempty]
      rw [heff]
      simp [pollDims, h169, h43]
  · intro ha
    rw [ha]
    decide

/-- Witness for C5 at the model "FLUX 2.0" with aspect ratio 16:9. -/
theorem create_poll_dims_witness :
    (routedRequest ⟨"FLUX 2.0", "p", "u", "", some "16:9", none, none, none⟩).pollSize
      = some (1280, 720) :=
  (create_poll_dims ⟨"FLUX 2.0", "p", "u", "", some "16:9", none, none, none⟩
    (by decide)).1 rfl

/-- C7: an edge-routed request sends the user prompt with the aspect-ratio
prefix dictated by the reference image and aspect ratio, while the projects
table stores the original, unprefixed prompt. -/
theorem create_enhanced_prompt (input : CreateInput) (env : CreateEnv)
    (hedge : isEdgeModel input.model = true) :
    (jsTruthy input.referenceImage = true →
      (routedRequest input).sentPrompt =
        "maintain original " ++ effectiveAspect input.aspectRatio ++
          " aspect ratio, " ++ input.prompt)
    ∧ (jsTruthy input.referenceImage = false →
        (effectiveAspect input.aspectRatio = "16:9" →
          (routedRequest input).sentPrompt =
            "wide 16:9 aspect ratio, landscape orientation, cinematic shot, " ++ input.prompt)
        ∧ (effectiveAspect input.aspectRatio = "4:3" →
          (routedRequest input).sentPrompt =
            "4:3 aspect ratio, landscape orientation, " ++ input.prompt)
        ∧ (effectiveAspect input.aspectRatio = "1:1" →
          (routedRequest input).sentPrompt =
            "square 1:1 aspect ratio, " ++ input.prompt)
        ∧ (effectiveAspect input.aspectRatio ≠ "16:9" →
           effectiveAspect input.aspectRatio ≠ "4:3" →
           effectiveAspect input.aspectRatio ≠ "1:1" →
          (routedRequest input).sentPrompt = input.prompt))
    ∧ (ProjectsService.createInsertRow input env).prompt = input.prompt := by
  rw [sentPrompt_routedRequest, hedge]
  simp only [if_true]
  refine ⟨?_, ?_, rfl⟩
  · intro href
    simp [enhancedPrompt, href]
  · intro href
    refine ⟨?_, ?_, ?_, ?_⟩
    · intro ha
      simp [enhancedPrompt, href, ha]
    · intro ha
      simp [enhancedPrompt, href, ha]
    · intro ha
      simp [enhancedPrompt, href, ha]
    · intro h1 h2 h3
      simp [enhancedPrompt, href, h1, h2, h3]

/-- Witness for C7: a Nano Banana request at aspect 16:9 with no reference
image gets the cinematic 16:9 prefix and stores the raw prompt. -/
theorem create_enhanced_prompt_witness :
    (routedRequest ⟨"Nano Banana", "a dog", "u", "", some "16:9", none, none, none⟩).sentPrompt
      = "wide 16:9 aspect ratio, landscape orientation, cinematic shot, " ++ "a dog"
    ∧ (ProjectsService.createInsertRow
        ⟨"Nano Banana", "a dog", "u", "", some "16:9", none, none, none⟩
        ⟨⟨"http://img", some 3, none⟩, "", "id1", 5⟩).prompt = "a dog" := by
  constructor
  · exact ((create_enhanced_prompt
      ⟨"Nano Banana", "a dog", "u", "", some "16:9", none, none, none⟩
      ⟨⟨"http://img", some 3, none⟩, "", "id1", 5⟩ (by decide)).2.1 (by decide)).1 (by decide)
  · exact (create_enhanced_prompt
      ⟨"Nano Banana", "a dog", "u", "", some "16:9", none, none, none⟩
      ⟨⟨"http://img", some 3, none⟩, "", "id1", 5⟩ (by decide)).2.2

/-- Witness for C1 at the concrete models "Nano Banana Pro", "Grok 2" and
"FLUX 2.0". -/
theorem create_routing_witness :
    ((routedRequest ⟨"Nano Banana Pro", "a cat", "u", "", none, none, none, none⟩).reqProvider
        = some "google" ∧
      (routedRequest ⟨"Nano Banana Pro", "a cat", "u", "", none, none, none, none⟩).reqApiModel
        = some "gemini-3-pro-image-preview")
    ∧ ((routedRequest ⟨"Grok 2", "a cat", "u", "", none, none, none, none⟩).reqProvider
        = some "xai")
    ∧ ((routedRequest ⟨"FLUX 2.0", "a cat", "u", "", none, none, none, none⟩).pollSize
        = some (1024, 1024)) := by
  refine ⟨(create_routing _).2.1 rfl, ?_, ?_⟩
  · exact ((create_routing ⟨"Grok 2", "a cat", "u", "", none, none, none, none⟩).2.2.2.1 rfl).1
  · have h := (create_routing ⟨"FLUX 2.0", "a cat", "u", "", none, none, none, none⟩).2.2.2.2
      (by decide)
    exact h

theorem exists_poll_of_not_isEdge (r : GenRequest) (h : r.isEdge = false) :
    ∃ a w ht, r = GenRequest.poll a w ht := by
  cases r with
  | edge b => simp [GenRequest.isEdge] at h
  | poll a w ht => exact ⟨a, w, ht, rfl⟩

/-- C3: no client-side operation carries an effect that writes the team
wallet; WalletService only selects the balance and subscribes to updates;
the deduct_team_credits RPC appears in both edge-function branches; and the
credits field of a created Project is exactly the credits field of the
edge-function response (absent on the Pollinations path). -/
theorem team_wallet_frame :
    (∀ model originalUrl bucket, ∀ e ∈ clientEffects model originalUrl bucket,
        writesTeamWallet e = false)
    ∧ walletGetBalanceEffects = [DbEffect.selectRows "team_wallet"]
    ∧ walletSubscribeEffects = [DbEffect.subscribe "public:team_wallet"]
    ∧ DbEffect.rpcCall "deduct_team_credits" ∈ edgeGoogleEffects
    ∧ DbEffect.rpcCall "deduct_team_credits" ∈ edgeXaiEffects
    ∧ (∀ input env p, (routedRequest input).isEdge = true →
        ProjectsService.create input env = .ok p → p.credits = env.edgeData.credits)
    ∧ (∀ input env p, (routedRequest input).isEdge = false →
        ProjectsService.create input env = .ok p → p.credits = none) := by
  refine ⟨?_, rfl, rfl, by decide, by decide, ?_, ?_⟩
  · intro model originalUrl bucket e he
    have hall : (clientEffects model originalUrl bucket).all
        (fun d => !writesTeamWallet d) = true := by
      unfold clientEffects projectsCreateEffects editorCreateSessionEffects
        uploadImageEffects
      split <;> split <;> rfl
    have hket := List.all_eq_true.mp hall e he
    simpa using hket
  · intro input env p hedge hok
    obtain ⟨b, hb⟩ := exists_edge_of_isEdge _ hedge
    unfold ProjectsService.create at hok
    rw [hb] at hok
    cases herr : env.edgeData.error with
    | some e => rw [herr] at hok; exact absurd hok (by simp)
    | none =>
      rw [herr] at hok
      simp only [Except.ok.injEq] at hok
      rw [← hok]
  · intro input env p hpoll hok
    obtain ⟨a, wd, ht, hp⟩ := exists_poll_of_not_isEdge _ hpoll
    unfold ProjectsService.create at hok
    rw [hp] at hok
    simp only [Except.ok.injEq] at hok
    rw [← hok]

/-- Witness for C3 at a concrete operation set and a concrete successful
Grok 2 generation. -/
theorem team_wallet_frame_witness :
    writesTeamWallet (DbEffect.updateRow "users") = false
    ∧ (ProjectsService.create ⟨"Grok 2", "p", "u", "", none, none, none, none⟩
        ⟨⟨"http://img", some 7, none⟩, "", "id1", 5⟩ =
          .ok ⟨"id1", "http://img", "p", "u", "", "Grok 2", 5, some 7⟩ →
        (⟨"id1", "http://img", "p", "u", "", "Grok 2", 5, some 7⟩ : Project).credits
          = some 7) := by
  constructor
  · exact team_wallet_frame.1 "Grok 2" "http://x" "avatars"
      (DbEffect.updateRow "users") (by decide)
  · intro hok
    exact team_wallet_frame.2.2.2.2.2.1
      ⟨"Grok 2", "p", "u", "", none, none, none, none⟩
      ⟨⟨"http://img", some 7, none⟩, "", "id1", 5⟩ _ (by decide) hok

/-- C10: getUsageStats always produces exactly 7 daily-activity entries,
returns the all-zero defaults on backend failure, counts per day of the
trailing 7-day window ending today on success, and getBalance returns 0 on
failure or when the balance is missing. -/
theorem wallet_neutral_defaults :
    (∀ today res, (WalletService.getUsageStats today res).dailyActivity.length = 7)
    ∧ (∀ today, WalletService.getUsageStats today none =
        { modelUsage := [], dailyActivity := List.replicate 7 0 })
    ∧ (∀ today dta, 6 ≤ today → ∀ i,
        ∀ hi : i < (WalletService.getUsageStats today (some dta)).dailyActivity.length,
        (WalletService.getUsageStats today (some dta)).dailyActivity.get ⟨i, hi⟩ =
          ((dta.recentProjects.getD []).filter fun c => c = today - 6 + i).length)
    ∧ WalletService.getBalance none = 0
    ∧ WalletService.getBalance (some none) = 0 := by
  refine ⟨?_, ?_, ?_, rfl, rfl⟩
  · intro today res
    cases res with
    | none => rfl
    | some dta => simp [WalletService.getUsageStats, last7Days]
  · intro today
    rfl
  · intro today dta htoday i hi
    have hi7 : i < 7 := by
      simpa [WalletService.getUsageStats, last7Days] using hi
    simp only [WalletService.getUsageStats, last7Days, List.get_eq_getElem,
      List.getElem_map, List.getElem_range]
    have harith : today - (6 - i) = today - 6 + i := by omega
    rw [harith]

/-- Witness for C10: a window ending on day 10 counts day 4 activity in the
first slot. -/
theorem wallet_neutral_defaults_witness :
    6 ≤ 10
    ∧ (WalletService.getUsageStats 10
        (some ⟨some 2, some 3, some [4, 5, 5, 10]⟩)).dailyActivity.get
          ⟨0, by decide⟩ =
        ((some [4, 5, 5, 10] : Option (List Nat)).getD [] |>.filter
          fun c => c = 10 - 6 + 0).length := by
  refine ⟨by norm_num, ?_⟩
  exact wallet_neutral_defaults.2.2.1 10 ⟨some 2, some 3, some [4, 5, 5, 10]⟩
    (by norm_num) 0 (by decide)

/-- C8: getSessions never returns a session whose versions list is empty. -/
theorem getSessions_no_empty (u : Option String) (st : List SessionRow)
    (vt : List VersionRow) :
    ∀ s ∈ EditorHistoryService.getSessions u st vt, s.versions ≠ [] := by
  intro s hs
  unfold EditorHistoryService.getSessions at hs
  cases u with
  | none => simp at hs
  | some uid =>
    simp only [List.mem_filter] at hs
    have hlen := hs.2
    intro hnil
    rw [hnil] at hlen
    simp at hlen

/-- Witness for C8: a one-session, one-version store yields a session with
a nonempty versions list. -/
theorem getSessions_no_empty_witness :
    (⟨"s1", "url", [⟨"v1", "u", "p", "m", 5⟩], 10, "u1"⟩ : EditorSession) ∈
      EditorHistoryService.getSessions (some "u1") [⟨"s1", "u1", "url", 10⟩]
        [⟨"v1", "s1", "u", "p", "m", 5⟩]
    ∧ (⟨"s1", "url", [⟨"v1", "u", "p", "m", 5⟩], 10, "u1"⟩ :
        EditorSession).versions ≠ [] := by
  have hres : EditorHistoryService.getSessions (some "u1")
      [⟨"s1", "u1", "url", 10⟩] [⟨"v1", "s1", "u", "p", "m", 5⟩] =
      [⟨"s1", "url", [⟨"v1", "u", "p", "m", 5⟩], 10, "u1"⟩] := by
    simp [EditorHistoryService.getSessions, buildVersionsMap, mapGet, mapSet,
      toEditorVersion, List.mergeSort_singleton]
  constructor
  · rw [hres]
    exact List.mem_singleton.mpr rfl
  · exact getSessions_no_empty (some "u1") [⟨"s1", "u1", "url", 10⟩]
      [⟨"v1", "s1", "u", "p", "m", 5⟩] _
      (by rw [hres]; exact List.mem_singleton.mpr rfl)

theorem mapGet_mapSet_self {α : Type} (m : List (String × α)) (k : String) (a : α) :
    mapGet (mapSet m k a) k = some a := by
  induction m with
  | nil => simp [mapSet, mapGet]
  | cons kv rest ih =>
    obtain ⟨q, b⟩ := kv
    unfold mapSet
    by_cases hqk : q = k
    · rw [if_pos hqk]
      simp [mapGet]
    · rw [if_neg hqk]
      unfold mapGet
      rw [List.find?_cons_of_neg _ (by simpa using hqk)]
      exact ih

theorem mapGet_mapSet_ne {α : Type} (m : List (String × α)) {k q : String}
    (h : q ≠ k) (a : α) : mapGet (mapSet m k a) q = mapGet m q := by
  induction m with
  | nil =>
    simp [mapSet, mapGet, List.find?_cons_of_neg, Ne.symm h]
  | cons kv rest ih =>
    obtain ⟨p, b⟩ := kv
    unfold mapSet
    by_cases hpk : p = k
    · rw [if_pos hpk]
      unfold mapGet
      have hk : ¬ (k = q) := fun hc => h hc.symm
      have hp : ¬ (p = q) := fun hc => h (hc ▸ hpk)
      rw [List.find?_cons_of_neg _ (by simpa using hk),
        List.find?_cons_of_neg _ (by simpa using hp)]
    · rw [if_neg hpk]
      by_cases hpq : p = q
      · unfold mapGet
        rw [List.find?_cons_of_pos _ (by simpa using hpq),
          List.find?_cons_of_pos _ (by simpa using hpq)]
      · unfold mapGet
        rw [List.find?_cons_of_neg _ (by simpa using hpq),
          List.find?_cons_of_neg _ (by simpa using hpq)]
        exact ih

theorem foldl_buildStep (vs : List VersionRow) (m : List (String × List EditorVersion))
    (k : String) :
    (mapGet (vs.foldl (fun m v =>
        mapSet m v.session_id ((mapGet m v.session_id).getD [] ++ [toEditorVersion v])) m)
      k).getD [] =
      (mapGet m k).getD [] ++ (vs.filter fun v => v.session_id = k).map toEditorVersion := by
  induction vs generalizing m with
  | nil => simp
  | cons v vs ih =>
    simp only [List.foldl_cons]
    rw [ih]
    by_cases hvk : v.session_id = k
    · rw [List.filter_cons, if_pos (by simpa using hvk), hvk, mapGet_mapSet_self]
      simp
    · rw [List.filter_cons, if_neg (by simpa using hvk),
        mapGet_mapSet_ne _ (fun hc => hvk hc.symm)]

theorem versions_eq_filter (vs : List VersionRow) (k : String) :
    (mapGet (buildVersionsMap vs) k).getD [] =
      (vs.filter fun v => v.session_id = k).map toEditorVersion := by
  unfold buildVersionsMap
  rw [foldl_buildStep]
  simp [mapGet]

/-- C6: getSessions returns the current user's sessions ordered newest
first by creation time, and within every returned session the versions are
ordered oldest first by creation time. -/
theorem getSessions_sorted (u : Option String) (st : List SessionRow)
    (vt : List VersionRow) :
    List.Pairwise (fun a b => b.timestamp ≤ a.timestamp)
      (EditorHistoryService.getSessions u st vt)
    ∧ (∀ uid, u = some uid →
        ∀ s ∈ EditorHistoryService.getSessions u st vt, s.userId = uid)
    ∧ (∀ s ∈ EditorHistoryService.getSessions u st vt,
        List.Pairwise (fun a b => a.timestamp ≤ b.timestamp) s.versions) := by
  cases u with
  | none =>
    refine ⟨by simp [EditorHistoryService.getSessions], ?_, ?_⟩
    · intro uid huid
      exact absurd huid (by simp)
    · intro s hs
      simp [EditorHistoryService.getSessions] at hs
  | some uid =>
    have hsorted : List.Pairwise (fun a b : SessionRow => sessionDesc a b = true)
        ((st.filter fun s => s.user_id = uid).mergeSort sessionDesc) :=
      List.sorted_mergeSort
        (by intro a b c hab hbc; simp only [sessionDesc, decide_eq_true_eq] at *; omega)
        (by intro a b; simp only [sessionDesc, Bool.or_eq_true, decide_eq_true_eq]; omega) _
    have hvsorted : List.Pairwise (fun a b : VersionRow => versionAsc a b = true)
        ((vt.filter fun v =>
          (((st.filter fun s => s.user_id = uid).mergeSort sessionDesc).map
            fun s => s.id).contains v.session_id).mergeSort versionAsc) :=
      List.sorted_mergeSort
        (by intro a b c hab hbc; simp only [versionAsc, decide_eq_true_eq] at *; omega)
        (by intro a b; simp only [versionAsc, Bool.or_eq_true, decide_eq_true_eq]; omega) _
    refine ⟨?_, ?_, ?_⟩
    · simp only [EditorHistoryService.getSessions]
      apply List.Pairwise.sublist (List.filter_sublist _)
      exact List.Pairwise.map _
        (fun a b hab => by simpa [sessionDesc] using hab) hsorted
    · intro uid2 huid s hs
      injection huid with huid2
      subst huid2
      simp only [EditorHistoryService.getSessions] at hs
      obtain ⟨hmem, hlen⟩ := List.mem_filter.mp hs
      obtain ⟨row, hrow, hfeq⟩ := List.mem_map.mp hmem
      have hrow2 := List.mem_mergeSort.mp hrow
      have hu : row.user_id = uid := by
        have hx := (List.mem_filter.mp hrow2).2
        simpa using hx
      rw [← hfeq]
      simpa using hu
    · intro s hs
      simp only [EditorHistoryService.getSessions] at hs
      obtain ⟨hmem, hlenx⟩ := List.mem_filter.mp hs
      obtain ⟨row, hrow, hfeq⟩ := List.mem_map.mp hmem
      rw [← hfeq]
      simp only [versions_eq_filter]
      exact List.Pairwise.map _
        (fun a b hab => by simpa [versionAsc, toEditorVersion] using hab)
        (List.Pairwise.sublist (List.filter_sublist _) hvsorted)

/-- Witness for C6: a one-session store with two versions created at times
8 and 5 yields that session with versions ordered 5 then 8, owned by the
current user. -/
theorem getSessions_sorted_witness :
    List.Pairwise (fun a b : EditorVersion => a.timestamp ≤ b.timestamp)
      (⟨"s1", "url", [⟨"v2", "u2x", "p2", "m", 5⟩, ⟨"v1", "u1x", "p1", "m", 8⟩],
        10, "u1"⟩ : EditorSession).versions
    ∧ (⟨"s1", "url", [⟨"v2", "u2x", "p2", "m", 5⟩, ⟨"v1", "u1x", "p1", "m", 8⟩],
        10, "u1"⟩ : EditorSession).userId = "u1" := by
  have hres : EditorHistoryService.getSessions (some "u1")
      [⟨"s1", "u1", "url", 10⟩]
      [⟨"v1", "s1", "u1x", "p1", "m", 8⟩, ⟨"v2", "s1", "u2x", "p2", "m", 5⟩] =
      [⟨"s1", "url", [⟨"v2", "u2x", "p2", "m", 5⟩, ⟨"v1", "u1x", "p1", "m", 8⟩],
        10, "u1"⟩] := by
    simp [EditorHistoryService.getSessions, buildVersionsMap, mapGet, mapSet,
      toEditorVersion, List.mergeSort, List.mergeSort_singleton, List.merge,
      versionAsc, sessionDesc]
  constructor
  · exact (getSessions_sorted (some "u1") [⟨"s1", "u1", "url", 10⟩]
      [⟨"v1", "s1", "u1x", "p1", "m", 8⟩, ⟨"v2", "s1", "u2x", "p2", "m", 5⟩]).2.2 _
      (by rw [hres]; exact List.mem_singleton.mpr rfl)
  · exact (getSessions_sorted (some "u1") [⟨"s1", "u1", "url", 10⟩]
      [⟨"v1", "s1", "u1x", "p1", "m", 8⟩, ⟨"v2", "s1", "u2x", "p2", "m", 5⟩]).2.1
      "u1" rfl _ (by rw [hres]; exact List.mem_singleton.mpr rfl)

theorem chooseClosest_spec (x : ℚ) (l : List (String × ℚ)) :
    ∀ (best : String) (bd : ℚ),
      ((chooseClosest x l (best, some bd)).1 = best ∧ ∀ p ∈ l, bd ≤ |x - p.2|)
      ∨ (∃ i, ∃ hi : i < l.length,
          (chooseClosest x l (best, some bd)).1 = (l[i]).1 ∧
          |x - (l[i]).2| < bd ∧
          (∀ j, ∀ hj : j < l.length, |x - (l[i]).2| ≤ |x - (l[j]).2|) ∧
          (∀ j, ∀ hj : j < l.length, j < i → |x - (l[i]).2| < |x - (l[j]).2|)) := by
  induction l with
  | nil =>
    intro best bd
    left
    exact ⟨rfl, by simp⟩
  | cons p rest ih =>
    intro best bd
    by_cases hd : |x - p.2| < bd
    · have hstep : chooseClosest x (p :: rest) (best, some bd)
          = chooseClosest x rest (p.1, some |x - p.2|) := by
        simp [chooseClosest, better, hd]
      rw [hstep]
      rcases ih p.1 |x - p.2| with ⟨h1, h2⟩ | ⟨i, hi, h1, h2, h3, h4⟩
      · right
        refine ⟨0, by simp, by simpa using h1, by simpa using hd, ?_, ?_⟩
        · intro j hj
          cases j with
          | zero => simp
          | succ j =>
            have hj2 : j < rest.length := by simpa using hj
            have hq := h2 (rest[j]) (List.getElem_mem hj2)
            simpa using hq
        · intro j hj hji
          omega
      · right
        refine ⟨i + 1, by simp only [List.length_cons]; omega,
          by simpa using h1, ?_, ?_, ?_⟩
        · have : |x - (rest[i]).2| < bd := lt_trans h2 hd
          simpa using this
        · intro j hj
          cases j with
          | zero =>
            have : |x - (rest[i]).2| ≤ |x - p.2| := le_of_lt h2
            simpa using this
          | succ j =>
            have hj2 : j < rest.length := by simpa using hj
            have := h3 j hj2
            simpa using this
        · intro j hj hji
          cases j with
          | zero =>
            simpa using h2
          | succ j =>
            have hj2 : j < rest.length := by simpa using hj
            have := h4 j hj2 (by omega)
            simpa using this
    · have hstep : chooseClosest x (p :: rest) (best, some bd)
          = chooseClosest x rest (best, some bd) := by
        simp [chooseClosest, better, hd]
      rw [hstep]
      rcases ih best bd with ⟨h1, h2⟩ | ⟨i, hi, h1, h2, h3, h4⟩
      · left
        refine ⟨h1, ?_⟩
        intro q hq
        rcases List.mem_cons.mp hq with rfl | hq2
        · exact not_lt.mp hd
        · exact h2 q hq2
      · right
        refine ⟨i + 1, by simp only [List.length_cons]; omega,
          by simpa using h1, by simpa using h2, ?_, ?_⟩
        · intro j hj
          cases j with
          | zero =>
            have : |x - (rest[i]).2| ≤ |x - p.2| :=
              le_of_lt (lt_of_lt_of_le h2 (not_lt.mp hd))
            simpa using this
          | succ j =>
            have hj2 : j < rest.length := by simpa using hj
            have := h3 j hj2
            simpa using this
        · intro j hj hji
          cases j with
          | zero =>
            have : |x - (rest[i]).2| < |x - p.2| :=
              lt_of_lt_of_le h2 (not_lt.mp hd)
            simpa using this
          | succ j =>
            have hj2 : j < rest.length := by simpa using hj
            have := h4 j hj2 (by omega)
            simpa using this

theorem chooseClosest_none (x : ℚ) (p : String × ℚ) (rest : List (String × ℚ))
    (b0 : String) :
    ∃ i, ∃ hi : i < (p :: rest).length,
      (chooseClosest x (p :: rest) (b0, none)).1 = ((p :: rest)[i]).1 ∧
      (∀ j, ∀ hj : j < (p :: rest).length,
        |x - ((p :: rest)[i]).2| ≤ |x - ((p :: rest)[j]).2|) ∧
      (∀ j, ∀ hj : j < (p :: rest).length, j < i →
        |x - ((p :: rest)[i]).2| < |x - ((p :: rest)[j]).2|) := by
  have hstep : chooseClosest x (p :: rest) (b0, none)
      = chooseClosest x rest (p.1, some |x - p.2|) := by
    simp [chooseClosest, better]
  rw [hstep]
  rcases chooseClosest_spec x rest p.1 |x - p.2| with ⟨h1, h2⟩ | ⟨i, hi, h1, h2, h3, h4⟩
  · refine ⟨0, by simp, by simpa using h1, ?_, ?_⟩
    · intro j hj
      cases j with
      | zero => simp
      | succ j =>
        have hj2 : j < rest.length := by simpa using hj
        have hq := h2 (rest[j]) (List.getElem_mem hj2)
        simpa using hq
    · intro j hj hji
      omega
  · refine ⟨i + 1, by simp only [List.length_cons]; omega,
      by simpa using h1, ?_, ?_⟩
    · intro j hj
      cases j with
      | zero =>
        have : |x - (rest[i]).2| ≤ |x - p.2| := le_of_lt h2
        simpa using this
      | succ j =>
        have hj2 : j < rest.length := by simpa using hj
        have := h3 j hj2
        simpa using this
    · intro j hj hji
      cases j with
      | zero =>
        simpa using h2
      | succ j =>
        have hj2 : j < rest.length := by simpa using hj
        have := h4 j hj2 (by omega)
        simpa using this

/-- C4: for every image with positive width and height, the selected label
is an entry of the candidate list whose ratio minimises the distance to the
image ratio, the earliest such entry in list order; an exactly square image
yields the label 1:1. -/
theorem calculateAspectRatio_spec (w h : ℚ) (hw : 0 < w) (hh : 0 < h) :
    (∃ i, ∃ hi : i < aspectRatios.length,
      calculateAspectRatio w h = (aspectRatios[i]).1 ∧
      (∀ j, ∀ hj : j < aspectRatios.length,
        |w / h - (aspectRatios[i]).2| ≤ |w / h - (aspectRatios[j]).2|) ∧
      (∀ j, ∀ hj : j < aspectRatios.length, j < i →
        |w / h - (aspectRatios[i]).2| < |w / h - (aspectRatios[j]).2|))
    ∧ (w = h → calculateAspectRatio w h = "1:1") := by
  have hmain := chooseClosest_none (w / h) ("16:9", 16 / 9)
    [("4:3", 4 / 3), ("1:1", 1), ("3:4", 3 / 4), ("9:16", 9 / 16)] "1:1"
  constructor
  · exact hmain
  · intro hweq
    have hx : w / h = 1 := by
      rw [hweq]
      field_simp
    obtain ⟨i, hi, hres, hmin, htie⟩ := hmain
    have hi5 : i < 5 := by simpa using hi
    have hle := hmin 2 (by simp)
    have hnn : (0:ℚ) ≤ |w / h - ((("16:9", (16:ℚ) / 9) ::
        [("4:3", 4 / 3), ("1:1", 1), ("3:4", 3 / 4), ("9:16", 9 / 16)])[i]).2| :=
      abs_nonneg _
    interval_cases i
    · exfalso
      rw [hx] at hle
      norm_num at hle
    · exfalso
      rw [hx] at hle
      norm_num at hle
    · exact hres
    · exfalso
      rw [hx] at hle
      norm_num at hle
    · exfalso
      rw [hx] at hle
      norm_num at hle

/-- Witness for C4: a square 3x3 image yields the label 1:1. -/
theorem calculateAspectRatio_spec_witness : calculateAspectRatio 3 3 = "1:1" :=
  (calculateAspectRatio_spec 3 3 (by norm_num) (by norm_num)).2 rfl

theorem toList_append (a b : String) : (a ++ b).toList = a.toList ++ b.toList := by
  simp [String.toList]

theorem char_toNat_lt (c : Char) : c.toNat < 1114112 := by
  have h := c.valid
  unfold UInt32.isValidChar Nat.isValidChar at h
  have he : c.toNat = c.val.toNat := rfl
  omega

theorem hexVal_hexDigitChar (n : Nat) (h : n < 16) :
    hexVal (hexDigitChar n) = some n := by
  interval_cases n <;> decide

theorem utf8Bytes_lt_256 (c : Char) : ∀ b ∈ utf8Bytes c, b < 256 := by
  intro b hb
  have hv := char_toNat_lt c
  simp only [utf8Bytes] at hb
  split_ifs at hb with h1 h2 h3
  · simp only [List.mem_singleton] at hb
    omega
  · simp only [List.mem_cons, List.not_mem_nil, or_false] at hb
    rcases hb with rfl | rfl <;> omega
  · simp only [List.mem_cons, List.not_mem_nil, or_false] at hb
    rcases hb with rfl | rfl | rfl <;> omega
  · simp only [List.mem_cons, List.not_mem_nil, or_false] at hb
    rcases hb with rfl | rfl | rfl | rfl <;> omega

theorem decodeBytesAux_cons {c : Char} (l : List Char) (h1 : c ≠ '+')
    (h2 : c ≠ '%') : decodeBytesAux (c :: l) = utf8Bytes c ++ decodeBytesAux l := by
  match l with
  | [] => simp [decodeBytesAux, h1, h2]
  | [a] => simp [decodeBytesAux, h1, h2]
  | a :: b :: t => simp [decodeBytesAux, h1, h2]

theorem decodeBytesAux_plus (l : List Char) :
    decodeBytesAux ('+' :: l) = 32 :: decodeBytesAux l := by
  match l with
  | [] => simp [decodeBytesAux]
  | [a] => simp [decodeBytesAux]
  | a :: b :: t => simp [decodeBytesAux]

theorem decodeBytesAux_escape (d1 d2 : Char) (a b : Nat) (l : List Char)
    (ha : hexVal d1 = some a) (hb : hexVal d2 = some b) :
    decodeBytesAux ('%' :: d1 :: d2 :: l) = (16 * a + b) :: decodeBytesAux l := by
  simp [decodeBytesAux, ha, hb]

theorem decode_encodeByte (b : Nat) (h : b < 256) (l : List Char) :
    decodeBytesAux (encodeByte b ++ l) = b :: decodeBytesAux l := by
  have h1 : hexVal (hexDigitChar (b / 16)) = some (b / 16) :=
    hexVal_hexDigitChar _ (by omega)
  have h2 : hexVal (hexDigitChar (b % 16)) = some (b % 16) :=
    hexVal_hexDigitChar _ (by omega)
  show decodeBytesAux ('%' :: hexDigitChar (b / 16) :: hexDigitChar (b % 16) :: l) = _
  rw [decodeBytesAux_escape _ _ _ _ l h1 h2]
  congr 1
  omega

theorem decode_encodeBytes (bs : List Nat) (h : ∀ b ∈ bs, b < 256) (l : List Char) :
    decodeBytesAux ((bs.map encodeByte).flatten ++ l) = bs ++ decodeBytesAux l := by
  induction bs with
  | nil => simp
  | cons b bs ih =>
    simp only [List.map_cons, List.flatten_cons, List.append_assoc]
    rw [decode_encodeByte b (h b (List.mem_cons_self _ _)),
      ih fun x hx => h x (List.mem_cons_of_mem _ hx)]
    rfl

theorem decodeBytesAux_encodeChar (c : Char) (l : List Char) :
    decodeBytesAux (encodeChar c ++ l) = utf8Bytes c ++ decodeBytesAux l := by
  unfold encodeChar
  split_ifs with hu hs
  · have hp : c ≠ '+' := fun hc => by rw [hc] at hu; exact absurd hu (by decide)
    have hpc : c ≠ '%' := fun hc => by rw [hc] at hu; exact absurd hu (by decide)
    rw [List.singleton_append, decodeBytesAux_cons l hp hpc]
  · subst hs
    rw [List.singleton_append, decodeBytesAux_plus]
    rfl
  · exact decode_encodeBytes _ (utf8Bytes_lt_256 c) l

theorem decode_flatMap_encodeChar (cs : List Char) (l : List Char) :
    decodeBytesAux (cs.flatMap encodeChar ++ l) =
      cs.flatMap utf8Bytes ++ decodeBytesAux l := by
  induction cs with
  | nil => simp
  | cons c cs ih =>
    simp only [List.flatMap_cons, List.append_assoc]
    rw [decodeBytesAux_encodeChar, ih]

theorem utf8Decode_cons (b0 : Nat) (rest : List Nat) :
    utf8Decode (b0 :: rest)
      = utf8Val b0 rest :: utf8Decode (rest.drop (utf8Len b0)) := by
  rw [utf8Decode]

theorem utf8Decode_utf8Bytes (c : Char) (bs : List Nat) :
    utf8Decode (utf8Bytes c ++ bs) = c :: utf8Decode bs := by
  have hv := char_toNat_lt c
  simp only [utf8Bytes]
  split_ifs with h1 h2 h3
  · simp only [List.cons_append, List.nil_append]
    rw [utf8Decode_cons]
    have hl : utf8Len c.toNat = 0 := by
      unfold utf8Len
      rw [if_pos h1]
    have hval : utf8Val c.toNat bs = c := by
      unfold utf8Val
      rw [if_pos h1, Char.ofNat_toNat]
    rw [hl, hval]
    rfl
  · simp only [List.cons_append, List.nil_append]
    rw [utf8Decode_cons]
    have hl : utf8Len (192 + c.toNat / 64) = 1 := by
      unfold utf8Len
      rw [if_neg (by omega), if_pos (by omega)]
    have hval : utf8Val (192 + c.toNat / 64) ((128 + c.toNat % 64) :: bs) = c := by
      unfold utf8Val
      rw [if_neg (by omega), if_pos (by omega)]
      simp only [List.headD_cons]
      have harith : (192 + c.toNat / 64 - 192) * 64 + (128 + c.toNat % 64 - 128)
          = c.toNat := by omega
      rw [harith, Char.ofNat_toNat]
    rw [hl, hval]
    rfl
  · simp only [List.cons_append, List.nil_append]
    rw [utf8Decode_cons]
    have hl : utf8Len (224 + c.toNat / 4096) = 2 := by
      unfold utf8Len
      rw [if_neg (by omega), if_neg (by omega), if_pos (by omega)]
    have hval : utf8Val (224 + c.toNat / 4096)
        ((128 + c.toNat / 64 % 64) :: (128 + c.toNat % 64) :: bs) = c := by
      unfold utf8Val
      rw [if_neg (by omega), if_neg (by omega), if_pos (by omega)]
      simp only [List.headD_cons, List.drop_succ_cons, List.drop_zero]
      have harith : (224 + c.toNat / 4096 - 224) * 4096 +
          (128 + c.toNat / 64 % 64 - 128) * 64 + (128 + c.toNat % 64 - 128)
          = c.toNat := by omega
      rw [harith, Char.ofNat_toNat]
    rw [hl, hval]
    rfl
  · simp only [List.cons_append, List.nil_append]
    rw [utf8Decode_cons]
    have hl : utf8Len (240 + c.toNat / 262144) = 3 := by
      unfold utf8Len
      rw [if_neg (by omega), if_neg (by omega), if_neg (by omega)]
    have hval : utf8Val (240 + c.toNat / 262144)
        ((128 + c.toNat / 4096 % 64) :: (128 + c.toNat / 64 % 64) ::
          (128 + c.toNat % 64) :: bs) = c := by
      unfold utf8Val
      rw [if_neg (by omega), if_neg (by omega), if_neg (by omega)]
      simp only [List.headD_cons, List.drop_succ_cons, List.drop_zero]
      have harith : (240 + c.toNat / 262144 - 240) * 262144 +
          (128 + c.toNat / 4096 % 64 - 128) * 4096 +
          (128 + c.toNat / 64 % 64 - 128) * 64 + (128 + c.toNat % 64 - 128)
          = c.toNat := by omega
      rw [harith, Char.ofNat_toNat]
    rw [hl, hval]
    rfl

theorem utf8Decode_flatMap (cs : List Char) :
    utf8Decode (cs.flatMap utf8Bytes) = cs := by
  induction cs with
  | nil =>
    simp only [List.flatMap_nil]
    rw [utf8Decode]
  | cons c cs ih =>
    simp only [List.flatMap_cons]
    rw [utf8Decode_utf8Bytes, ih]

theorem decodeComponent_encodeComponent (s : String) :
    decodeComponent (encodeComponent s) = s := by
  unfold decodeComponent encodeComponent
  have h1 : (String.mk (s.toList.flatMap encodeChar)).toList
      = s.toList.flatMap encodeChar := rfl
  rw [h1]
  have h2 := decode_flatMap_encodeChar s.toList []
  simp only [List.append_nil] at h2
  have h3 : decodeBytesAux [] = [] := rfl
  rw [h3, List.append_nil] at h2
  rw [h2, utf8Decode_flatMap]
  rfl

theorem encodeChar_safe (c : Char) :
    ∀ d ∈ encodeChar c, d ≠ '&' ∧ d ≠ '=' ∧ d ≠ '?' := by
  intro d hd
  unfold encodeChar at hd
  split_ifs at hd with hu hs
  · simp only [List.mem_singleton] at hd
    subst hd
    refine ⟨?_, ?_, ?_⟩ <;> rintro rfl <;> exact absurd hu (by decide)
  · simp only [List.mem_singleton] at hd
    subst hd
    exact ⟨by decide, by decide, by decide⟩
  · obtain ⟨bl, hbl, hdbl⟩ := List.mem_flatten.mp hd
    obtain ⟨b, hbmem, rfl⟩ := List.mem_map.mp hbl
    have hb256 := utf8Bytes_lt_256 c b hbmem
    simp only [encodeByte, List.mem_cons, List.not_mem_nil, or_false] at hdbl
    have hhex : ∀ n, n < 16 →
        hexDigitChar n ≠ '&' ∧ hexDigitChar n ≠ '=' ∧ hexDigitChar n ≠ '?' := by
      intro n hn
      interval_cases n <;> exact ⟨by decide, by decide, by decide⟩
    rcases hdbl with rfl | rfl | rfl
    · exact ⟨by decide, by decide, by decide⟩
    · exact hhex _ (by omega)
    · exact hhex _ (by omega)

theorem encodeComponent_no (s : String) :
    ∀ d ∈ (encodeComponent s).toList, d ≠ '&' ∧ d ≠ '=' ∧ d ≠ '?' := by
  intro d hd
  have he : (encodeComponent s).toList = s.toList.flatMap encodeChar := rfl
  rw [he] at hd
  obtain ⟨c, hc, hdc⟩ := List.mem_flatMap.mp hd
  exact encodeChar_safe c d hdc

theorem afterQuestionMark_append (pre l : List Char) (h : ('?' ∈ pre) → False) :
    afterQuestionMark (pre ++ '?' :: l) = some l := by
  induction pre with
  | nil => simp [afterQuestionMark]
  | cons c p ih =>
    simp only [List.cons_append, afterQuestionMark]
    rw [if_neg (fun hc => h (List.mem_cons.mpr (Or.inl hc.symm)))]
    exact ih fun hm => h (List.mem_cons_of_mem _ hm)

theorem splitOnAmp_append (A l : List Char) (h : ('&' ∈ A) → False) :
    splitOnAmp (A ++ '&' :: l) = A :: splitOnAmp l := by
  induction A with
  | nil => simp [splitOnAmp]
  | cons c p ih =>
    simp only [List.cons_append, splitOnAmp, List.append_eq]
    rw [if_neg (fun hc => h (List.mem_cons.mpr (Or.inl hc.symm)))]
    rw [ih fun hm => h (List.mem_cons_of_mem _ hm)]

theorem splitKV_append (K V : List Char) (h : ('=' ∈ K) → False) :
    splitKV (K ++ '=' :: V) = (K, V) := by
  induction K with
  | nil => simp [splitKV]
  | cons c p ih =>
    simp only [List.cons_append, splitKV, List.append_eq]
    rw [if_neg (fun hc => h (List.mem_cons.mpr (Or.inl hc.symm)))]
    rw [ih fun hm => h (List.mem_cons_of_mem _ hm)]

theorem decodeComponent_url : decodeComponent "url" = "url" := by
  have h1 : encodeComponent "url" = "url" := by decide
  calc decodeComponent "url" = decodeComponent (encodeComponent "url") := by rw [h1]
    _ = "url" := decodeComponent_encodeComponent "url"

theorem getOriginal_wsrv (url R : String) (hne : url ≠ "") :
    getOriginalImageUrl ("https://wsrv.nl/" ++ "?" ++
      ("url" ++ "=" ++ encodeComponent url ++ "&" ++ R)) = url := by
  set U := "https://wsrv.nl/" ++ "?" ++
    ("url" ++ "=" ++ encodeComponent url ++ "&" ++ R) with hUdef
  have htl : U.toList = "https://wsrv.nl/".toList ++
      ('?' :: ("url".toList ++ ('=' :: ((encodeComponent url).toList ++
        ('&' :: R.toList))))) := by
    rw [hUdef]
    simp only [toList_append]
    rw [show ("?" : String).toList = ['?'] from rfl,
      show ("=" : String).toList = ['='] from rfl,
      show ("&" : String).toList = ['&'] from rfl]
    simp [List.append_assoc]
  have hAq : afterQuestionMark U.toList
      = some ("url".toList ++ ('=' :: ((encodeComponent url).toList ++
          ('&' :: R.toList)))) := by
    rw [htl]
    exact afterQuestionMark_append _ _ (by decide)
  have hshape : "url".toList ++ ('=' :: ((encodeComponent url).toList ++
        ('&' :: R.toList)))
      = ("url".toList ++ '=' :: (encodeComponent url).toList) ++ '&' :: R.toList := by
    simp [List.append_assoc]
  have hAamp : ('&' ∈ "url".toList ++ '=' :: (encodeComponent url).toList) → False := by
    intro hmem
    rcases List.mem_append.mp hmem with hm | hm
    · exact absurd hm (by decide)
    · rcases List.mem_cons.mp hm with hm | hm
      · exact absurd hm (by decide)
      · exact (encodeComponent_no url '&' hm).1 rfl
  have hsplitA : splitKV ("url".toList ++ '=' :: (encodeComponent url).toList)
      = ("url".toList, (encodeComponent url).toList) :=
    splitKV_append _ _ (by decide)
  have hkey : decodeComponent (String.mk
      (splitKV ("url".toList ++ '=' :: (encodeComponent url).toList)).1) = "url" := by
    rw [hsplitA]
    exact decodeComponent_url
  have hparam : getQueryParam U "url" = some url := by
    unfold getQueryParam
    rw [hAq, Option.some_bind]
    rw [hshape, splitOnAmp_append _ _ hAamp]
    rw [List.find?_cons_of_pos _ (by simpa using hkey)]
    rw [Option.map_some']
    rw [hsplitA]
    have hmk : String.mk ((encodeComponent url).toList) = encodeComponent url := rfl
    rw [hmk, decodeComponent_encodeComponent]
  have hUne : ¬ (U = "") := by
    intro hc
    rw [hc] at htl
    have hlen := congrArg List.length htl
    simp at hlen
  have hcont : strContains U "wsrv.nl" = true := by
    unfold strContains
    rw [List.any_eq_true]
    refine ⟨"wsrv.nl/".toList ++ ('?' :: ("url".toList ++ ('=' ::
      ((encodeComponent url).toList ++ ('&' :: R.toList))))), ?_, ?_⟩
    · rw [List.mem_tails, htl,
        show ("https://wsrv.nl/" : String).toList
          = "https://".toList ++ "wsrv.nl/".toList from rfl,
        List.append_assoc]
      exact List.suffix_append _ _
    · rw [ List.isPrefixOf_iff_prefix,
        show ("wsrv.nl/" : String).toList
          = "wsrv.nl".toList ++ ['/'] from rfl,
        List.append_assoc]
      exact List.prefix_append _ _
  unfold getOriginalImageUrl
  rw [if_neg hUne, if_pos hcont, hparam]
  simp only [Option.some.injEq]
  rw [if_neg hne]

/-- C9: the CDN wrapper round-trips: for a nonempty URL that is not a
data:/blob: URL and does not mention wsrv.nl, extracting the original URL
from the optimised URL gives back the input; getOptimizedImageUrl is the
identity on data: and blob: URLs and maps the empty string to itself. -/
theorem imageOptimizer_roundtrip (url : String) (w : Option Nat) (q : Nat)
    (f : String) (hne : url ≠ "")
    (hdata : strStartsWith url "data:" = false)
    (hblob : strStartsWith url "blob:" = false)
    (hwsrv : strContains url "wsrv.nl" = false) :
    getOriginalImageUrl (getOptimizedImageUrl url w q f) = url
    ∧ (∀ u2, strStartsWith u2 "data:" = true ∨ strStartsWith u2 "blob:" = true →
        getOptimizedImageUrl u2 w q f = u2)
    ∧ getOptimizedImageUrl "" w q f = "" := by
  have hps : ∀ (kv2 : String × String) (rest : List (String × String)),
      paramsToString (("url", url) :: kv2 :: rest)
        = "url" ++ "=" ++ encodeComponent url ++ "&" ++
            paramsToString (kv2 :: rest) := by
    intro kv2 rest
    rw [show paramsToString (("url", url) :: kv2 :: rest)
        = encodeComponent "url" ++ "=" ++ encodeComponent url ++ "&" ++
            paramsToString (kv2 :: rest) from rfl]
    rw [show encodeComponent "url" = "url" from by decide]
  refine ⟨?_, ?_, ?_⟩
  · unfold getOptimizedImageUrl
    rw [if_neg hne, if_neg (by rw [hdata, hblob]; exact Bool.false_ne_true)]
    cases w with
    | none =>
      simp only [List.singleton_append, List.nil_append]
      rw [hps _ _]
      exact getOriginal_wsrv url _ hne
    | some wv =>
      by_cases hwv : wv = 0
      · simp only [hwv, if_pos, List.singleton_append, List.nil_append]
        rw [hps _ _]
        exact getOriginal_wsrv url _ hne
      · simp only [if_neg hwv, List.singleton_append, List.cons_append,
          List.nil_append]
        rw [hps _ _]
        exact getOriginal_wsrv url _ hne
  · intro u2 h2
    have hne2 : ¬ (u2 = "") := by
      rintro rfl
      rcases h2 with h | h <;> exact absurd h (by decide)
    unfold getOptimizedImageUrl
    rw [if_neg hne2, if_pos (by rcases h2 with h | h <;> simp [h])]
  · rfl

/-- Witness for C9 at a URL with a space and slashes. -/
theorem imageOptimizer_roundtrip_witness :
    getOriginalImageUrl (getOptimizedImageUrl "https://example.com/cat img.png"
      (some 300) 80 "webp") = "https://example.com/cat img.png" :=
  (imageOptimizer_roundtrip "https://example.com/cat img.png" (some 300) 80
    "webp" (by decide) (by decide) (by decide) (by decide)).1
